import Mathlib

/-!
Verification of the decaffeinate-parser tree conversion (src/parser.js).

The development shallowly embeds the parser's core — the location algebra
(`mergeLocations`, `locationContainingNodes`, the two anchor-expansion
functions), the node builder (`makeNode`) and the recursive tree converter
(`convert` and its helpers) — as executable Lean functions, and proves the
specification's claims about them.

Modelling conventions:
* Upstream spans (`Loc`) use the upstream parser's 0-based, end-inclusive
  line/column coordinates, as `Nat`s.
* Byte offsets and ranges are `Int`s, so the source's clamping branches
  (`range[0] < 0`, `range[1] > source.length`) are represented exactly.
* The external position mapper (`lineColumnMapper`, excluded from the core
  by the spec) is an abstract pair of functions (`Mapper`).
* JavaScript object identity of `locationData` objects (the `===` test in
  the `If` case) is modelled by tagging each location object with a `Nat`
  id (`LocRef`); equal ids mean the very same object.
* JavaScript runtime failures (property access on `undefined`/`null`) and
  the `throw` sites are both modelled in an `Except ConvError` monad.
* `String.prototype.indexOf`, `lastIndexOf` and `slice` are modelled on
  `List Char` with JavaScript's clamping behaviour (for the non-empty
  search strings the parser uses).
-/

/-- An upstream source span: 0-based, end-inclusive line/column data,
mirroring the `{first_line, first_column, last_line, last_column}`
objects of the upstream parser. -/
structure Loc where
  first_line : Nat
  first_column : Nat
  last_line : Nat
  last_column : Nat
deriving Repr, DecidableEq

/-- A `locationData` object together with its JavaScript object identity:
two `LocRef`s with the same `id` model the very same runtime object. -/
structure LocRef where
  id : Nat
  val : Loc
deriving Repr, DecidableEq

/-- The external position mapper: `toOffset line column` is the byte
offset of a 0-based position, `invert offset` the inverse, returning a
`(line, column)` pair. -/
structure Mapper where
  toOffset : Nat → Nat → Int
  invert : Nat → Nat × Nat

/-- `mergeLocations` from src/parser.js: the convex hull of two spans,
computed by the source's exact cascade of strict comparisons (start
prefers the second operand on an exact tie, end prefers the first). -/
def mergeLocations (left right : Loc) : Loc :=
  let fp :=
    if left.first_line < right.first_line then (left.first_line, left.first_column)
    else if left.first_line > right.first_line then (right.first_line, right.first_column)
    else if left.first_column < right.first_column then (left.first_line, left.first_column)
    else (right.first_line, right.first_column)
  let lp :=
    if left.last_line < right.last_line then (right.last_line, right.last_column)
    else if left.last_line > right.last_line then (left.last_line, left.last_column)
    else if left.last_column < right.last_column then (right.last_line, right.last_column)
    else (left.last_line, left.last_column)
  ⟨fp.1, fp.2, lp.1, lp.2⟩

/-- `locationContainingNodes` from src/parser.js, over the nodes'
`locationData` spans: `null` for no argument, the span itself for one,
and otherwise the first span merged with the result on the rest. -/
def locationContainingNodes : List Loc → Option Loc
  | [] => none
  | [a] => some a
  | [a, b] => some (mergeLocations a b)
  | a :: rest => (locationContainingNodes rest).map (fun l => mergeLocations a l)

/-- Lexicographic "starts no later than" on (line, column) positions. -/
def posLe (l1 c1 l2 c2 : Nat) : Prop :=
  l1 < l2 ∨ (l1 = l2 ∧ c1 ≤ c2)

instance (l1 c1 l2 c2 : Nat) : Decidable (posLe l1 c1 l2 c2) := by
  unfold posLe; infer_instance

/-- `covers outer inner`: the span `outer` contains the span `inner`
(starts no later and ends no earlier, lexicographically). -/
def covers (outer inner : Loc) : Prop :=
  posLe outer.first_line outer.first_column inner.first_line inner.first_column ∧
    posLe inner.last_line inner.last_column outer.last_line outer.last_column

instance (a b : Loc) : Decidable (covers a b) := by
  unfold covers; infer_instance

/-- Claim C6: `mergeLocations a b` is the smallest span covering both `a`
and `b`: it covers each operand, any span covering both operands covers
it (so its start is the lexicographically earlier start and its end the
lexicographically later end), and on an exact coordinate tie the start is
taken from the second operand and the end from the first. -/
theorem C6_merge_smallest_covering (a b : Loc) :
    covers (mergeLocations a b) a ∧ covers (mergeLocations a b) b ∧
      (∀ c : Loc, covers c a → covers c b → covers c (mergeLocations a b)) ∧
      (a.first_line = b.first_line → a.first_column = b.first_column →
        (mergeLocations a b).first_line = b.first_line ∧
          (mergeLocations a b).first_column = b.first_column) ∧
      (a.last_line = b.last_line → a.last_column = b.last_column →
        (mergeLocations a b).last_line = a.last_line ∧
          (mergeLocations a b).last_column = a.last_column) := by
  obtain ⟨afl, afc, all', alc⟩ := a
  obtain ⟨bfl, bfc, bll, blc⟩ := b
  refine ⟨?_, ?_, ?_, ?_, ?_⟩
  · simp only [mergeLocations, covers, posLe]
    split_ifs <;> dsimp only <;> omega
  · simp only [mergeLocations, covers, posLe]
    split_ifs <;> dsimp only <;> omega
  · intro c h1 h2
    obtain ⟨cfl, cfc, cll, clc⟩ := c
    simp only [mergeLocations, covers, posLe] at h1 h2 ⊢
    split_ifs <;> dsimp only <;> omega
  · intro h1 h2
    simp only [mergeLocations] at *
    split_ifs <;> simp_all
  · intro h1 h2
    simp only [mergeLocations] at *
    split_ifs <;> simp_all

/-- Claim C9: `mergeLocations` is commutative on span values. -/
theorem C9_merge_commutative (a b : Loc) :
    mergeLocations a b = mergeLocations b a := by
  obtain ⟨afl, afc, all', alc⟩ := a
  obtain ⟨bfl, bfc, bll, blc⟩ := b
  simp only [mergeLocations]
  split_ifs <;> simp_all [Loc.mk.injEq] <;> omega


/-- Strict lexicographic comparison of (line, column) pairs, used to
restate the operand choices made inside `mergeLocations`. -/
def pLt (x y : Nat × Nat) : Prop :=
  x.1 < y.1 ∨ (x.1 = y.1 ∧ x.2 < y.2)

instance (x y : Nat × Nat) : Decidable (pLt x y) := by
  unfold pLt; infer_instance

/-- The start-position choice of `mergeLocations` on (line, column)
pairs: the lexicographically smaller pair, the second operand on an
exact tie. -/
def pMin (x y : Nat × Nat) : Nat × Nat := if pLt x y then x else y

/-- The end-position choice of `mergeLocations` on (line, column)
pairs: the lexicographically larger pair, the first operand on an
exact tie. -/
def pMax (x y : Nat × Nat) : Nat × Nat := if pLt y x then x else y

theorem mergeLocations_eq (a b : Loc) :
    mergeLocations a b =
      ⟨(pMin (a.first_line, a.first_column) (b.first_line, b.first_column)).1,
        (pMin (a.first_line, a.first_column) (b.first_line, b.first_column)).2,
        (pMax (a.last_line, a.last_column) (b.last_line, b.last_column)).1,
        (pMax (a.last_line, a.last_column) (b.last_line, b.last_column)).2⟩ := by
  obtain ⟨afl, afc, all', alc⟩ := a
  obtain ⟨bfl, bfc, bll, blc⟩ := b
  simp only [mergeLocations, pMin, pMax, pLt]
  split_ifs <;> (try rfl) <;> (try simp_all [Prod.mk.injEq, Loc.mk.injEq]) <;> (try omega)

theorem pMin_assoc (x y z : Nat × Nat) : pMin (pMin x y) z = pMin x (pMin y z) := by
  obtain ⟨x1, x2⟩ := x
  obtain ⟨y1, y2⟩ := y
  obtain ⟨z1, z2⟩ := z
  simp only [pMin, pLt]
  split_ifs <;> (try rfl) <;> (try simp_all [Prod.mk.injEq]) <;> (try omega)

theorem pMax_assoc (x y z : Nat × Nat) : pMax (pMax x y) z = pMax x (pMax y z) := by
  obtain ⟨x1, x2⟩ := x
  obtain ⟨y1, y2⟩ := y
  obtain ⟨z1, z2⟩ := z
  simp only [pMax, pLt]
  split_ifs <;> (try rfl) <;> (try simp_all [Prod.mk.injEq]) <;> (try omega)

theorem mergeLocations_assoc (a b c : Loc) :
    mergeLocations (mergeLocations a b) c = mergeLocations a (mergeLocations b c) := by
  simp only [mergeLocations_eq, Loc.mk.injEq, Prod.mk.eta]
  rw [pMin_assoc, pMax_assoc]
  exact ⟨rfl, rfl, rfl, rfl⟩

theorem foldl_mergeLocations_pull (l : List Loc) (a m : Loc) :
    mergeLocations a (l.foldl mergeLocations m) =
      l.foldl mergeLocations (mergeLocations a m) := by
  induction l generalizing m with
  | nil => rfl
  | cons d r ih =>
    simp only [List.foldl_cons]
    rw [ih, mergeLocations_assoc]

theorem locationContainingNodes_cons2 (rest : List Loc) (a b : Loc) :
    locationContainingNodes (a :: b :: rest) =
      some (List.foldl mergeLocations (mergeLocations a b) rest) := by
  induction rest generalizing a b with
  | nil => rfl
  | cons c rest' ih =>
    have h4 : locationContainingNodes (a :: b :: c :: rest') =
        (locationContainingNodes (b :: c :: rest')).map (fun l => mergeLocations a l) := by
      rfl
    rw [h4, ih b c]
    simp only [Option.map_some', Option.some.injEq, List.foldl_cons]
    rw [foldl_mergeLocations_pull rest' a (mergeLocations b c), ← mergeLocations_assoc]

/-- Claim C7: `locationContainingNodes` returns `null` for zero spans,
the span itself for one span, and for more than two spans the same
result as a left fold of `mergeLocations` over the spans in order (the
source's right-nested recursion agrees with the left fold because
`mergeLocations` is associative). -/
theorem C7_locationContainingNodes_fold :
    locationContainingNodes [] = none ∧
      (∀ a : Loc, locationContainingNodes [a] = some a) ∧
      (∀ (a b c : Loc) (rest : List Loc),
        locationContainingNodes (a :: b :: c :: rest) =
          some (List.foldl mergeLocations a (b :: c :: rest))) := by
  refine ⟨rfl, fun a => rfl, fun a b c rest => ?_⟩
  rw [locationContainingNodes_cons2 (c :: rest) a b]
  simp only [List.foldl_cons]

/-- The failure modes of the converter: the `throw` sites of
src/parser.js (unknown node/property/operator dispatch and the
anchor-expansion failures) plus JavaScript runtime type errors
(property access on `undefined`/`null`), which also abort conversion. -/
inductive ConvError where
  | unknownNodeType (typeName : String)
  | anchorNotFound (line : Nat) (column : Nat) (anchor : String)
  | jsTypeError
deriving Repr, DecidableEq

/-- `occursAt src pat i` holds when the substring `pat` occurs in `src`
starting at index `i` (for non-empty `pat` this forces
`i + pat.length ≤ src.length`). -/
def occursAt (src pat : List Char) (i : Nat) : Bool :=
  decide ((src.drop i).take pat.length = pat)

/-- JavaScript `src.indexOf(pat, start)` (on the code units of `src`):
the least index `i ≥ start` at which `pat` occurs, `none` when there is
no occurrence.  A negative `start` behaves like `0`, as in JavaScript.
The parser only searches for the non-empty anchors `"when "` and `"]"`,
for which this model is exact. -/
def jsIndexOf (src pat : List Char) (start : Int) : Option Nat :=
  (List.range (src.length + 1)).find?
    (fun i => decide (start ≤ (i : Int)) && occursAt src pat i)

/-- JavaScript `src.lastIndexOf(pat, start)`: the greatest index
`i ≤ max start 0` at which `pat` occurs, `none` when there is no such
occurrence (JavaScript clamps a negative `start` to `0`). -/
def jsLastIndexOf (src pat : List Char) (start : Int) : Option Nat :=
  ((List.range (src.length + 1)).reverse).find?
    (fun i => decide ((i : Int) ≤ max start 0) && occursAt src pat i)

/-- `expandLocationRightThrough` from src/parser.js: moves the span's
end through the first occurrence of `string` at or after the span's
exclusive end offset; hard error, carrying the searched 1-based
line/column and the anchor text, when there is none. -/
def expandLocationRightThrough (source : List Char) (m : Mapper) (loc : Loc)
    (string : String) : Except ConvError Loc :=
  let offset : Int := m.toOffset loc.last_line loc.last_column + 1
  match jsIndexOf source string.toList offset with
  | none =>
    .error (.anchorNotFound (loc.last_line + 1) (loc.last_column + 1) string)
  | some i =>
    let newLoc := m.invert (i + string.toList.length - 1)
    .ok ⟨loc.first_line, loc.first_column, newLoc.1, newLoc.2⟩

/-- `expandLocationLeftThrough` from src/parser.js: moves the span's
start to the nearest occurrence of `string` at or before the span's
start offset; hard error, carrying the searched 1-based line/column and
the anchor text, when there is none. -/
def expandLocationLeftThrough (source : List Char) (m : Mapper) (loc : Loc)
    (string : String) : Except ConvError Loc :=
  let offset : Int := m.toOffset loc.first_line loc.first_column
  match jsLastIndexOf source string.toList offset with
  | none =>
    .error (.anchorNotFound (loc.first_line + 1) (loc.first_column + 1) string)
  | some i =>
    let newLoc := m.invert i
    .ok ⟨newLoc.1, newLoc.2, loc.last_line, loc.last_column⟩

theorem find?_range_min {n i : Nat} {p : Nat → Bool}
    (h : (List.range n).find? p = some i) :
    p i = true ∧ i < n ∧ ∀ j, j < i → p j = false := by
  induction n with
  | zero => simp [List.range_zero] at h
  | succ n ih =>
    rw [List.range_succ, List.find?_append] at h
    cases hfind : (List.range n).find? p with
    | some k =>
      rw [hfind] at h
      simp only [Option.or_some] at h
      obtain rfl : k = i := by injection h
      obtain ⟨h1, h2, h3⟩ := ih hfind
      exact ⟨h1, Nat.lt_succ_of_lt h2, h3⟩
    | none =>
      rw [hfind] at h
      simp only [Option.none_or] at h
      have hall : ∀ j, j < n → p j = false := by
        intro j hj
        have := List.find?_eq_none.mp hfind j (List.mem_range.mpr hj)
        simpa using this
      cases hpn : p n with
      | true =>
        simp only [List.find?_cons, hpn, List.find?_nil] at h
        obtain rfl : n = i := by injection h
        exact ⟨hpn, Nat.lt_succ_self n, hall⟩
      | false =>
        simp [List.find?_cons, hpn, List.find?_nil] at h

theorem find?_range_reverse_max {n i : Nat} {p : Nat → Bool}
    (h : ((List.range n).reverse).find? p = some i) :
    p i = true ∧ i < n ∧ ∀ j, i < j → j < n → p j = false := by
  induction n with
  | zero => simp [List.range_zero] at h
  | succ n ih =>
    rw [List.range_succ, List.reverse_append] at h
    simp only [List.reverse_singleton, List.singleton_append, List.find?_cons] at h
    cases hpn : p n with
    | true =>
      rw [hpn] at h
      obtain rfl : n = i := by injection h
      exact ⟨hpn, Nat.lt_succ_self n, fun j h1 h2 => absurd h2 (by omega)⟩
    | false =>
      rw [hpn] at h
      obtain ⟨h1, h2, h3⟩ := ih h
      refine ⟨h1, Nat.lt_succ_of_lt h2, fun j hij hjn => ?_⟩
      rcases Nat.lt_or_ge j n with hj | hj
      · exact h3 j hij hj
      · obtain rfl : j = n := by omega
        exact hpn

/-- `pat` occurs in `src` somewhere at or after byte offset `off`. -/
def occursAtOrAfter (src pat : List Char) (off : Int) : Prop :=
  ∃ i : Nat, i ≤ src.length ∧ off ≤ (i : Int) ∧ occursAt src pat i = true

/-- `pat` occurs in `src` somewhere at or before byte offset `off`. -/
def occursAtOrBefore (src pat : List Char) (off : Int) : Prop :=
  ∃ i : Nat, i ≤ src.length ∧ (i : Int) ≤ off ∧ occursAt src pat i = true

theorem jsIndexOf_eq_none_iff {src pat : List Char} {start : Int} :
    jsIndexOf src pat start = none ↔ ¬ occursAtOrAfter src pat start := by
  unfold jsIndexOf occursAtOrAfter
  rw [List.find?_eq_none]
  constructor
  · rintro h ⟨i, hle, hstart, hocc⟩
    have := h i (List.mem_range.mpr (by omega))
    exact this (by simp only [Bool.and_eq_true, decide_eq_true_eq]; exact ⟨hstart, hocc⟩)
  · intro h i hi
    rw [List.mem_range] at hi
    intro hcon
    simp only [Bool.and_eq_true, decide_eq_true_eq] at hcon
    exact h ⟨i, by omega, hcon.1, hcon.2⟩

theorem jsIndexOf_eq_some {src pat : List Char} {start : Int} {i : Nat}
    (h : jsIndexOf src pat start = some i) :
    start ≤ (i : Int) ∧ i ≤ src.length ∧ occursAt src pat i = true ∧
      ∀ j : Nat, start ≤ (j : Int) → j < i → occursAt src pat j = false := by
  obtain ⟨h1, h2, h3⟩ := find?_range_min h
  simp only [Bool.and_eq_true, decide_eq_true_eq] at h1
  refine ⟨h1.1, by omega, h1.2, fun j hstart hji => ?_⟩
  have := h3 j hji
  simp only [Bool.and_eq_false_iff] at this
  rcases this with hd | hd
  · exact absurd hstart (by simpa using hd)
  · exact hd

theorem jsLastIndexOf_eq_none_iff {src pat : List Char} {start : Int} :
    jsLastIndexOf src pat start = none ↔
      ¬ ∃ i : Nat, i ≤ src.length ∧ (i : Int) ≤ max start 0 ∧ occursAt src pat i = true := by
  unfold jsLastIndexOf
  rw [List.find?_eq_none]
  constructor
  · rintro h ⟨i, hle, hstart, hocc⟩
    have := h i (by rw [List.mem_reverse, List.mem_range]; omega)
    exact this (by simp only [Bool.and_eq_true, decide_eq_true_eq]; exact ⟨hstart, hocc⟩)
  · intro h i hi
    rw [List.mem_reverse, List.mem_range] at hi
    intro hcon
    simp only [Bool.and_eq_true, decide_eq_true_eq] at hcon
    exact h ⟨i, by omega, hcon.1, hcon.2⟩

theorem jsLastIndexOf_eq_some {src pat : List Char} {start : Int} {i : Nat}
    (h : jsLastIndexOf src pat start = some i) :
    (i : Int) ≤ max start 0 ∧ i ≤ src.length ∧ occursAt src pat i = true ∧
      ∀ j : Nat, i < j → j ≤ src.length → (j : Int) ≤ max start 0 →
        occursAt src pat j = false := by
  obtain ⟨h1, h2, h3⟩ := find?_range_reverse_max h
  simp only [Bool.and_eq_true, decide_eq_true_eq] at h1
  refine ⟨h1.1, by omega, h1.2, fun j hij hjle hjstart => ?_⟩
  have := h3 j hij (by omega)
  simp only [Bool.and_eq_false_iff] at this
  rcases this with hd | hd
  · exact absurd hjstart (by simpa using hd)
  · exact hd

theorem expandRight_eq_of_none {source : List Char} {m : Mapper} {loc : Loc}
    {anchor : String}
    (h : jsIndexOf source anchor.toList (m.toOffset loc.last_line loc.last_column + 1) = none) :
    expandLocationRightThrough source m loc anchor =
      Except.error (ConvError.anchorNotFound (loc.last_line + 1) (loc.last_column + 1) anchor) := by
  simp only [expandLocationRightThrough]
  rw [h]

theorem expandRight_eq_of_some {source : List Char} {m : Mapper} {loc : Loc}
    {anchor : String} {i : Nat}
    (h : jsIndexOf source anchor.toList (m.toOffset loc.last_line loc.last_column + 1) = some i) :
    expandLocationRightThrough source m loc anchor =
      Except.ok ⟨loc.first_line, loc.first_column,
        (m.invert (i + anchor.toList.length - 1)).1,
        (m.invert (i + anchor.toList.length - 1)).2⟩ := by
  simp only [expandLocationRightThrough]
  rw [h]

theorem expandLeft_eq_of_none {source : List Char} {m : Mapper} {loc : Loc}
    {anchor : String}
    (h : jsLastIndexOf source anchor.toList (m.toOffset loc.first_line loc.first_column) = none) :
    expandLocationLeftThrough source m loc anchor =
      Except.error (ConvError.anchorNotFound (loc.first_line + 1) (loc.first_column + 1) anchor) := by
  simp only [expandLocationLeftThrough]
  rw [h]

theorem expandLeft_eq_of_some {source : List Char} {m : Mapper} {loc : Loc}
    {anchor : String} {i : Nat}
    (h : jsLastIndexOf source anchor.toList (m.toOffset loc.first_line loc.first_column) = some i) :
    expandLocationLeftThrough source m loc anchor =
      Except.ok ⟨(m.invert i).1, (m.invert i).2, loc.last_line, loc.last_column⟩ := by
  simp only [expandLocationLeftThrough]
  rw [h]

/-- Claim C8: `expandLocationRightThrough` (resp.
`expandLocationLeftThrough`) raises an anchor-not-found error if and
only if the anchor does not occur in the source at or after the span's
(exclusive) end offset (resp. at or before the span's start offset,
which JavaScript's `lastIndexOf` clamps at `0`); any raised error
carries the searched 1-based line/column and the anchor text; and on
success the other endpoint is kept unchanged while the end moves to the
last character of the first such occurrence of the anchor (resp. the
start moves to the start of the nearest such occurrence). -/
theorem C8_expand_anchor_errors (source : List Char) (m : Mapper) (loc : Loc)
    (anchor : String) :
    (expandLocationRightThrough source m loc anchor =
        Except.error (ConvError.anchorNotFound (loc.last_line + 1) (loc.last_column + 1) anchor) ↔
      ¬ occursAtOrAfter source anchor.toList (m.toOffset loc.last_line loc.last_column + 1)) ∧
    (∀ e, expandLocationRightThrough source m loc anchor = Except.error e →
      e = ConvError.anchorNotFound (loc.last_line + 1) (loc.last_column + 1) anchor) ∧
    (∀ i : Nat,
      jsIndexOf source anchor.toList (m.toOffset loc.last_line loc.last_column + 1) = some i →
        expandLocationRightThrough source m loc anchor =
            Except.ok ⟨loc.first_line, loc.first_column,
              (m.invert (i + anchor.toList.length - 1)).1,
              (m.invert (i + anchor.toList.length - 1)).2⟩ ∧
          occursAt source anchor.toList i = true ∧
          m.toOffset loc.last_line loc.last_column + 1 ≤ (i : Int) ∧
          ∀ j : Nat, m.toOffset loc.last_line loc.last_column + 1 ≤ (j : Int) → j < i →
            occursAt source anchor.toList j = false) ∧
    (0 ≤ m.toOffset loc.first_line loc.first_column →
      (expandLocationLeftThrough source m loc anchor =
          Except.error (ConvError.anchorNotFound (loc.first_line + 1) (loc.first_column + 1) anchor) ↔
        ¬ occursAtOrBefore source anchor.toList (m.toOffset loc.first_line loc.first_column))) ∧
    (∀ e, expandLocationLeftThrough source m loc anchor = Except.error e →
      e = ConvError.anchorNotFound (loc.first_line + 1) (loc.first_column + 1) anchor) ∧
    (∀ i : Nat,
      jsLastIndexOf source anchor.toList (m.toOffset loc.first_line loc.first_column) = some i →
        expandLocationLeftThrough source m loc anchor =
            Except.ok ⟨(m.invert i).1, (m.invert i).2, loc.last_line, loc.last_column⟩ ∧
          occursAt source anchor.toList i = true ∧
          (i : Int) ≤ max (m.toOffset loc.first_line loc.first_column) 0 ∧
          ∀ j : Nat, i < j → j ≤ source.length →
            (j : Int) ≤ max (m.toOffset loc.first_line loc.first_column) 0 →
              occursAt source anchor.toList j = false) := by
  refine ⟨?_, ?_, ?_, ?_, ?_, ?_⟩
  · cases hfind : jsIndexOf source anchor.toList (m.toOffset loc.last_line loc.last_column + 1) with
    | none => exact iff_of_true (expandRight_eq_of_none hfind) (jsIndexOf_eq_none_iff.mp hfind)
    | some i =>
      rw [expandRight_eq_of_some hfind]
      simp only [reduceCtorEq, false_iff, not_not]
      obtain ⟨h1, h2, h3, _⟩ := jsIndexOf_eq_some hfind
      exact ⟨i, h2, h1, h3⟩
  · intro e he
    cases hfind : jsIndexOf source anchor.toList (m.toOffset loc.last_line loc.last_column + 1) with
    | none =>
      rw [expandRight_eq_of_none hfind] at he
      injection he with he
      exact he.symm
    | some i =>
      rw [expandRight_eq_of_some hfind] at he
      exact absurd he (by simp)
  · intro i hfind
    obtain ⟨h1, h2, h3, h4⟩ := jsIndexOf_eq_some hfind
    exact ⟨expandRight_eq_of_some hfind, h3, h1, h4⟩
  · intro hpos
    cases hfind : jsLastIndexOf source anchor.toList (m.toOffset loc.first_line loc.first_column) with
    | none =>
      refine iff_of_true (expandLeft_eq_of_none hfind) ?_
      have := jsLastIndexOf_eq_none_iff.mp hfind
      rintro ⟨i, hle, hstart, hocc⟩
      exact this ⟨i, hle, by omega, hocc⟩
    | some i =>
      rw [expandLeft_eq_of_some hfind]
      simp only [reduceCtorEq, false_iff, not_not]
      obtain ⟨h1, h2, h3, _⟩ := jsLastIndexOf_eq_some hfind
      exact ⟨i, h2, by omega, h3⟩
  · intro e he
    cases hfind : jsLastIndexOf source anchor.toList (m.toOffset loc.first_line loc.first_column) with
    | none =>
      rw [expandLeft_eq_of_none hfind] at he
      injection he with he
      exact he.symm
    | some i =>
      rw [expandLeft_eq_of_some hfind] at he
      exact absurd he (by simp)
  · intro i hfind
    obtain ⟨h1, h2, h3, h4⟩ := jsLastIndexOf_eq_some hfind
    exact ⟨expandLeft_eq_of_some hfind, h3, h1, h4⟩

/-- Witness for C8 at a concrete input: in the source `"ab] when c"`
with an identity single-line mapper, right-expanding the one-character
span at offset 0 through `"]"` succeeds and stops at offset 2, and
left-expanding the span at offset 9 through `"when "` succeeds and
moves the start to offset 4. -/
theorem C8_expand_anchor_errors_witness :
    expandLocationRightThrough "ab] when c".toList ⟨fun _ c => (c : Int), fun o => (0, o)⟩
        ⟨0, 0, 0, 0⟩ "]" = Except.ok ⟨0, 0, 0, 2⟩ ∧
      expandLocationLeftThrough "ab] when c".toList ⟨fun _ c => (c : Int), fun o => (0, o)⟩
        ⟨0, 9, 0, 9⟩ "when " = Except.ok ⟨0, 4, 0, 9⟩ := by
  constructor
  · have h := (C8_expand_anchor_errors "ab] when c".toList
      ⟨fun _ c => (c : Int), fun o => (0, o)⟩ ⟨0, 0, 0, 0⟩ "]").2.2.1 2 (by decide)
    exact h.1
  · have h := (C8_expand_anchor_errors "ab] when c".toList
      ⟨fun _ c => (c : Int), fun o => (0, o)⟩ ⟨0, 9, 0, 9⟩ "when ").2.2.2.2.2 4 (by decide)
    exact h.1

mutual
/-- A normalized output node, mirroring the objects built by `makeNode`
in src/parser.js: a `type` tag (which is `undefined` — `none` — when an
operator fails to dispatch), optional 1-based `line`/`column`, optional
half-open byte `range`, optional `raw` source slice, the `virtual` flag
(set exactly when the node was built without a span), and the named
attributes in insertion order. -/
inductive NNode where
  | mk (type : Option String) (line : Option Nat) (column : Option Nat)
      (range : Option (Int × Int)) (raw : Option (List Char)) (virtual : Bool)
      (attrs : List (String × Attr))

/-- An attribute value attached to a normalized node: a child node, an
array of children (possibly containing JavaScript `null`s, as a `Block`
with no expressions converts to `null`), or `null`. -/
inductive Attr where
  | node (n : NNode)
  | nodes (l : List (Option NNode))
  | nul
end

def NNode.type : NNode → Option String
  | .mk t _ _ _ _ _ _ => t

def NNode.line : NNode → Option Nat
  | .mk _ l _ _ _ _ _ => l

def NNode.column : NNode → Option Nat
  | .mk _ _ c _ _ _ _ => c

def NNode.range : NNode → Option (Int × Int)
  | .mk _ _ _ r _ _ _ => r

def NNode.raw : NNode → Option (List Char)
  | .mk _ _ _ _ r _ _ => r

def NNode.virtual : NNode → Bool
  | .mk _ _ _ _ _ v _ => v

def NNode.attrs : NNode → List (String × Attr)
  | .mk _ _ _ _ _ _ a => a

/-- JavaScript `slice` index normalization: negative indices count from
the end of the string, and everything is clamped into `[0, len]`. -/
def jsIndexClamp (len : Nat) (i : Int) : Nat :=
  if i < 0 then (if (len : Int) + i < 0 then 0 else ((len : Int) + i).toNat)
  else (if i > (len : Int) then len else i.toNat)

/-- JavaScript `src.slice(a, b)` on a list of characters. -/
def jsSlice (src : List Char) (a b : Int) : List Char :=
  let s := jsIndexClamp src.length a
  let e := jsIndexClamp src.length b
  (src.drop s).take (e - s)

/-- One step of `makeNode`'s range-widening loop: widen the running
range `r` to contain the child node's range, when it has one. -/
def widenRange (r : Int × Int) (n : NNode) : Int × Int :=
  match n.range with
  | some (s, e) => (if r.1 > s then s else r.1, if r.2 < e then e else r.2)
  | none => r

/-- `makeNode`'s range-widening over one attribute value.  A `null`
element inside an array attribute aborts with a TypeError, as
JavaScript's `node.range` access on `null` would. -/
def widenAttr (r : Int × Int) : Attr → Except ConvError (Int × Int)
  | .node n => .ok (widenRange r n)
  | .nodes l =>
    l.foldlM
      (fun r o =>
        match o with
        | some n => .ok (widenRange r n)
        | none => .error .jsTypeError)
      r
  | .nul => .ok r

/-- `makeNode` from src/parser.js.  With a `null` span the result is
virtual, with no location/range/raw.  Otherwise the initial range is
`[toOffset start, toOffset end + 1)`, widened to contain the range of
every attribute value (or array element), then clamped into
`[0, source.length]`, and `raw` is sliced from the source at the final
range. -/
def makeNode (source : List Char) (m : Mapper) (ty : Option String)
    (loc : Option Loc) (attrs : List (String × Attr)) : Except ConvError NNode :=
  match loc with
  | none => .ok (.mk ty none none none none true attrs)
  | some l => do
    let start := m.toOffset l.first_line l.first_column
    let stop := m.toOffset l.last_line l.last_column + 1
    let r ← attrs.foldlM (fun r p => widenAttr r p.2) (start, stop)
    let r0 := if r.1 < 0 then 0 else r.1
    let r1 := if r.2 > (source.length : Int) then (source.length : Int) else r.2
    .ok (.mk ty (some (l.first_line + 1)) (some (l.first_column + 1))
      (some (r0, r1)) (some (jsSlice source r0 r1)) false attrs)

@[simp] theorem exceptBind_ok {ε α β : Type} (x : α) (f : α → Except ε β) :
    (Except.ok x >>= f) = f x := rfl

@[simp] theorem exceptBind_error {ε α β : Type} (e : ε) (f : α → Except ε β) :
    (Except.error e >>= f : Except ε β) = Except.error e := rfl

@[simp] theorem exceptPure_eq {ε α : Type} (x : α) :
    (pure x : Except ε α) = Except.ok x := rfl

theorem widenRange_mono (r : Int × Int) (n : NNode) :
    (widenRange r n).1 ≤ r.1 ∧ r.2 ≤ (widenRange r n).2 := by
  unfold widenRange
  cases h : n.range with
  | none => exact ⟨le_refl _, le_refl _⟩
  | some p =>
    obtain ⟨s, e⟩ := p
    constructor <;> dsimp only <;> split_ifs <;> omega

theorem widenRange_contains {n : NNode} {s e : Int} (r : Int × Int)
    (h : n.range = some (s, e)) :
    (widenRange r n).1 ≤ s ∧ e ≤ (widenRange r n).2 := by
  unfold widenRange
  rw [h]
  constructor <;> dsimp only <;> split_ifs <;> omega

/-- The element-level widening step used for array attributes. -/
def widenElem (r : Int × Int) (o : Option NNode) : Except ConvError (Int × Int) :=
  match o with
  | some n => .ok (widenRange r n)
  | none => .error .jsTypeError

theorem widenAttr_nodes_eq (r : Int × Int) (l : List (Option NNode)) :
    widenAttr r (.nodes l) = l.foldlM widenElem r := rfl

theorem foldlM_widenElem_mono (l : List (Option NNode)) (r r' : Int × Int)
    (h : l.foldlM widenElem r = Except.ok r') :
    r'.1 ≤ r.1 ∧ r.2 ≤ r'.2 := by
  induction l generalizing r with
  | nil =>
    rw [List.foldlM_nil] at h
    injection h with h
    subst h
    exact ⟨le_refl _, le_refl _⟩
  | cons o t ih =>
    rw [List.foldlM_cons] at h
    cases o with
    | none =>
      rw [show (widenElem r none >>= fun b => t.foldlM widenElem b) =
        (Except.error ConvError.jsTypeError : Except ConvError (Int × Int)) from rfl] at h
      exact Except.noConfusion h
    | some n =>
      rw [show (widenElem r (some n) >>= fun b => t.foldlM widenElem b) =
        t.foldlM widenElem (widenRange r n) from rfl] at h
      have h1 := ih _ h
      have h2 := widenRange_mono r n
      exact ⟨le_trans h1.1 h2.1, le_trans h2.2 h1.2⟩

theorem foldlM_widenElem_contains {l : List (Option NNode)} {n : NNode}
    {s e : Int} (r r' : Int × Int)
    (hmem : some n ∈ l) (hrange : n.range = some (s, e))
    (h : l.foldlM widenElem r = Except.ok r') :
    r'.1 ≤ s ∧ e ≤ r'.2 := by
  induction l generalizing r with
  | nil => cases hmem
  | cons o t ih =>
    rw [List.foldlM_cons] at h
    cases o with
    | none =>
      rw [show (widenElem r none >>= fun b => t.foldlM widenElem b) =
        (Except.error ConvError.jsTypeError : Except ConvError (Int × Int)) from rfl] at h
      exact Except.noConfusion h
    | some n' =>
      rw [show (widenElem r (some n') >>= fun b => t.foldlM widenElem b) =
        t.foldlM widenElem (widenRange r n') from rfl] at h
      rcases List.mem_cons.mp hmem with heq | hmem'
      · obtain rfl : n' = n := by injection heq with heq; exact heq.symm
        have h1 := foldlM_widenElem_mono t _ _ h
        have h2 := widenRange_contains r hrange
        exact ⟨le_trans h1.1 h2.1, le_trans h2.2 h1.2⟩
      · exact ih _ hmem' h

theorem widenAttr_mono (a : Attr) (r r' : Int × Int)
    (h : widenAttr r a = Except.ok r') :
    r'.1 ≤ r.1 ∧ r.2 ≤ r'.2 := by
  cases a with
  | node n =>
    injection h with h
    subst h
    exact widenRange_mono r n
  | nodes l => exact foldlM_widenElem_mono l r r' h
  | nul =>
    injection h with h
    subst h
    exact ⟨le_refl _, le_refl _⟩

/-- `attrHasRange a s e`: the attribute value `a` is a node carrying the
range `[s, e)`, or an array containing such a node. -/
def attrHasRange : Attr → Int → Int → Bool
  | .node n, s, e => n.range == some (s, e)
  | .nodes l, s, e =>
    l.any fun o =>
      match o with
      | some n => n.range == some (s, e)
      | none => false
  | .nul, _, _ => false

theorem widenAttr_contains {a : Attr} {s e : Int} (r r' : Int × Int)
    (hmem : attrHasRange a s e = true)
    (h : widenAttr r a = Except.ok r') :
    r'.1 ≤ s ∧ e ≤ r'.2 := by
  cases a with
  | node n =>
    injection h with h
    subst h
    exact widenRange_contains r (by simpa [attrHasRange] using hmem)
  | nodes l =>
    simp only [attrHasRange, List.any_eq_true] at hmem
    obtain ⟨o, ho, hrange⟩ := hmem
    cases o with
    | none => simp at hrange
    | some n =>
      simp only [beq_iff_eq] at hrange
      exact foldlM_widenElem_contains r r' ho hrange h
  | nul => simp [attrHasRange] at hmem

/-- `attrsHaveRange attrs s e`: some attribute of `attrs` carries (or
contains an array element carrying) the range `[s, e)`. -/
def attrsHaveRange (attrs : List (String × Attr)) (s e : Int) : Bool :=
  attrs.any fun p => attrHasRange p.2 s e

theorem foldlM_widenAttr_mono (attrs : List (String × Attr)) (r r' : Int × Int)
    (h : attrs.foldlM (fun r p => widenAttr r p.2) r = Except.ok r') :
    r'.1 ≤ r.1 ∧ r.2 ≤ r'.2 := by
  induction attrs generalizing r with
  | nil =>
    rw [List.foldlM_nil] at h
    injection h with h
    subst h
    exact ⟨le_refl _, le_refl _⟩
  | cons p t ih =>
    rw [List.foldlM_cons] at h
    cases hw : widenAttr r p.2 with
    | error err => rw [hw] at h; simp at h
    | ok r1 =>
      rw [hw] at h
      simp only [exceptBind_ok] at h
      have h1 := ih _ h
      have h2 := widenAttr_mono p.2 r r1 hw
      exact ⟨le_trans h1.1 h2.1, le_trans h2.2 h1.2⟩

theorem foldlM_widenAttr_contains {attrs : List (String × Attr)} {s e : Int}
    (r r' : Int × Int) (hmem : attrsHaveRange attrs s e = true)
    (h : attrs.foldlM (fun r p => widenAttr r p.2) r = Except.ok r') :
    r'.1 ≤ s ∧ e ≤ r'.2 := by
  induction attrs generalizing r with
  | nil => simp [attrsHaveRange] at hmem
  | cons p t ih =>
    rw [List.foldlM_cons] at h
    cases hw : widenAttr r p.2 with
    | error err => rw [hw] at h; simp at h
    | ok r1 =>
      rw [hw] at h
      simp only [exceptBind_ok] at h
      simp only [attrsHaveRange, List.any_cons, Bool.or_eq_true] at hmem
      rcases hmem with hp | ht
      · have h1 := foldlM_widenAttr_mono t _ _ h
        have h2 := widenAttr_contains r r1 hp hw
        exact ⟨le_trans h1.1 h2.1, le_trans h2.2 h1.2⟩
      · exact ih _ (by simpa [attrsHaveRange] using ht) h

theorem makeNode_some {source : List Char} {m : Mapper} {ty : Option String}
    {l : Loc} {attrs : List (String × Attr)} {n : NNode}
    (h : makeNode source m ty (some l) attrs = Except.ok n) :
    ∃ r : Int × Int,
      attrs.foldlM (fun r p => widenAttr r p.2)
          (m.toOffset l.first_line l.first_column,
            m.toOffset l.last_line l.last_column + 1) = Except.ok r ∧
        n = NNode.mk ty (some (l.first_line + 1)) (some (l.first_column + 1))
          (some (if r.1 < 0 then 0 else r.1,
            if r.2 > (source.length : Int) then (source.length : Int) else r.2))
          (some (jsSlice source (if r.1 < 0 then 0 else r.1)
            (if r.2 > (source.length : Int) then (source.length : Int) else r.2)))
          false attrs := by
  simp only [makeNode] at h
  cases hfold : attrs.foldlM (fun r p => widenAttr r p.2)
      (m.toOffset l.first_line l.first_column,
        m.toOffset l.last_line l.last_column + 1) with
  | error err =>
    rw [hfold] at h
    simp at h
  | ok r =>
    rw [hfold] at h
    simp only [exceptBind_ok] at h
    injection h with h
    exact ⟨r, rfl, h.symm⟩

/-- Claim C4: for every node built by `makeNode` with a non-null span,
the final range contains the range of every attribute node (and of
every node inside a list-valued attribute), provided those child ranges
lie within the source bounds — which C5 shows holds for every range the
builder itself produces, so the containment propagates to all
descendants by induction. -/
theorem C4_range_containment (source : List Char) (m : Mapper)
    (ty : Option String) (l : Loc) (attrs : List (String × Attr)) (n : NNode)
    (s e : Int)
    (hmk : makeNode source m ty (some l) attrs = Except.ok n)
    (hmem : attrsHaveRange attrs s e = true)
    (hs : 0 ≤ s) (he : e ≤ (source.length : Int)) :
    ∃ r0 r1, n.range = some (r0, r1) ∧ r0 ≤ s ∧ e ≤ r1 := by
  obtain ⟨r, hfold, rfl⟩ := makeNode_some hmk
  obtain ⟨h1, h2⟩ := foldlM_widenAttr_contains _ r hmem hfold
  refine ⟨_, _, rfl, ?_, ?_⟩ <;> split_ifs <;> omega

/-- Claim C5: every non-virtual node produced by `makeNode` has, after
clamping, `0 ≤ range[0]`, `range[1] ≤ source.length`, and
`raw = source.slice(range[0], range[1])` exactly; range and raw are
fixed at construction, so re-slicing the source at the stored range
reproduces `raw`. -/
theorem C5_raw_slice_exactness (source : List Char) (m : Mapper)
    (ty : Option String) (l : Loc) (attrs : List (String × Attr)) (n : NNode)
    (hmk : makeNode source m ty (some l) attrs = Except.ok n) :
    n.virtual = false ∧
      ∃ r0 r1, n.range = some (r0, r1) ∧ 0 ≤ r0 ∧ r1 ≤ (source.length : Int) ∧
        n.raw = some (jsSlice source r0 r1) := by
  obtain ⟨r, hfold, rfl⟩ := makeNode_some hmk
  refine ⟨rfl, _, _, rfl, ?_, ?_, rfl⟩ <;> split_ifs <;> omega

/-- Concrete child node used by the builder witnesses: range `[0, 1)`. -/
def wChild : NNode :=
  .mk (some "Null") (some 1) (some 1) (some (0, 1)) (some "a".toList) false []

/-- Concrete attribute list used by the builder witnesses. -/
def wAttrs : List (String × Attr) := [("x", Attr.node wChild)]

/-- Identity single-line mapper used by concrete witnesses. -/
def wMapper : Mapper := ⟨fun _ c => (c : Int), fun o => (0, o)⟩

/-- Witness for C4: building a node over `"abc"` with anchor span
`[1, 2)` and one attribute child of range `[0, 1)` widens the range to
contain the child. -/
theorem C4_range_containment_witness :
    makeNode "abc".toList wMapper (some "X") (some ⟨0, 1, 0, 1⟩) wAttrs =
        Except.ok (NNode.mk (some "X") (some 1) (some 2) (some (0, 2))
          (some "ab".toList) false wAttrs) ∧
      ∃ r0 r1,
        (NNode.mk (some "X") (some 1) (some 2) (some (0, 2))
            (some "ab".toList) false wAttrs).range = some (r0, r1) ∧
          r0 ≤ 0 ∧ (1 : Int) ≤ r1 := by
  constructor
  · rfl
  · exact C4_range_containment "abc".toList wMapper (some "X") ⟨0, 1, 0, 1⟩
      wAttrs _ 0 1 (by rfl) (by rfl) (by decide) (by decide)

/-- Witness for C5: building a node over `"abc"` with anchor span
`[0, 1)` and no attributes yields a non-virtual node whose raw text is
the slice of the source at its range. -/
theorem C5_raw_slice_exactness_witness :
    makeNode "abc".toList wMapper (some "Y") (some ⟨0, 0, 0, 0⟩) [] =
        Except.ok (NNode.mk (some "Y") (some 1) (some 1) (some (0, 1))
          (some "a".toList) false []) ∧
      (NNode.mk (some "Y") (some 1) (some 1) (some (0, 1))
          (some "a".toList) false []).virtual = false ∧
      ∃ r0 r1,
        (NNode.mk (some "Y") (some 1) (some 1) (some (0, 1))
            (some "a".toList) false []).range = some (r0, r1) ∧
          0 ≤ r0 ∧ r1 ≤ ("abc".toList.length : Int) ∧
          (NNode.mk (some "Y") (some 1) (some 1) (some (0, 1))
              (some "a".toList) false []).raw =
            some (jsSlice "abc".toList r0 r1) := by
  refine ⟨by rfl, ?_⟩
  exact C5_raw_slice_exactness "abc".toList wMapper (some "Y") ⟨0, 0, 0, 0⟩
    [] _ (by rfl)

mutual
/-- The upstream CoffeeScript parse-tree nodes handled by the embedded
fragment of `convert` (the kinds the verified claims are about).  Every
node carries the upstream `locationData`, tagged with its JavaScript
object identity (`LocRef`); `none` models a nulled-out `locationData`. -/
inductive CSNode where
  | Op (operator : String) (first : CSNode) (second : Option CSNode)
      (locationData : Option LocRef)
  | If (condition : CSNode) (body : CSNode) (elseBody : Option CSNode)
      (locationData : Option LocRef)
  | Parens (body : CSNode) (locationData : Option LocRef)
  | Block (expressions : List CSNode) (locationData : Option LocRef)
  | Switch (subject : CSNode) (cases : List CSCase) (otherwise : Option CSNode)
      (locationData : Option LocRef)
  | Null (locationData : Option LocRef)

/-- One `[conditions, body]` entry of an upstream `Switch`'s case list. -/
inductive CSCase where
  | mk (conditions : CSCaseConds) (body : CSNode)

/-- Upstream represents a single-condition case as a bare node rather
than a one-element array. -/
inductive CSCaseConds where
  | single (c : CSNode)
  | arr (cs : List CSNode)
end

/-- The `locationData` field of an upstream node. -/
def csLocationData : CSNode → Option LocRef
  | .Op _ _ _ l => l
  | .If _ _ _ l => l
  | .Parens _ l => l
  | .Block _ l => l
  | .Switch _ _ _ l => l
  | .Null l => l

/-- In-place nulling of a node's `locationData`
(`node.condition.locationData = null` in the source). -/
def stripLoc : CSNode → CSNode
  | .Op o f s _ => .Op o f s none
  | .If c b e _ => .If c b e none
  | .Parens b _ => .Parens b none
  | .Block xs _ => .Block xs none
  | .Switch s cs o _ => .Switch s cs o none
  | .Null _ => .Null none

/-- `type(node) === 'Op' && node.operator === '!'`. -/
def isBangOp : CSNode → Bool
  | .Op op _ _ _ => op == "!"
  | _ => false

/-- JavaScript `===` on two (possibly null) `locationData` objects:
`null === null` is true, two objects are identical exactly when they
are the same object (same `LocRef.id`). -/
def refEq : Option LocRef → Option LocRef → Bool
  | none, none => true
  | some x, some y => x.id == y.id
  | _, _ => false

/-- The coordinate values of a (possibly null) `locationData`. -/
def locVal : Option LocRef → Option Loc :=
  fun o => o.map LocRef.val

/-- A converted child as an attribute value: a node, or `null` when the
child converted to `null` (an empty `Block`). -/
def attrOf : Option NNode → Attr
  | some n => .node n
  | none => .nul

/-- The binary-operator dispatch of `convertOperator`: `undefined` (no
node type) for an operator outside the recognized set. -/
def binaryOpType (op : String) : Option String :=
  if op = "+" then some "PlusOp"
  else if op = "-" then some "SubtractOp"
  else if op = "*" then some "MultiplyOp"
  else if op = "/" then some "DivideOp"
  else if op = "%" then some "RemOp"
  else none

/-- The unary-operator dispatch of `convertOperator`: `undefined` (no
node type) for an operator outside the recognized set. -/
def unaryOpType (op : String) : Option String :=
  if op = "+" then some "UnaryPlusOp"
  else if op = "-" then some "UnaryNegateOp"
  else if op = "typeof" then some "TypeofOp"
  else none

/-- `conditions = Array.isArray(conditions) ? conditions : [conditions]`. -/
def normalizeConds : CSCaseConds → List CSNode
  | .single c => [c]
  | .arr cs => cs

theorem csnode_sizeOf_pos (n : CSNode) : 0 < sizeOf n := by
  cases n <;> simp <;> omega

theorem stripLoc_sizeOf_le (n : CSNode) : sizeOf (stripLoc n) ≤ sizeOf n := by
  cases n with
  | Op o f s l => cases l <;> simp [stripLoc] <;> omega
  | If c b e l => cases l <;> simp [stripLoc] <;> omega
  | Parens b l => cases l <;> simp [stripLoc] <;> omega
  | Block xs l => cases l <;> simp [stripLoc] <;> omega
  | Switch s cs o l => cases l <;> simp [stripLoc] <;> omega
  | Null l => cases l <;> simp [stripLoc] <;> omega

theorem normalizeConds_sizeOf_le (cc : CSCaseConds) :
    sizeOf (normalizeConds cc) ≤ 1 + sizeOf cc := by
  cases cc <;> simp [normalizeConds] <;> omega

theorem iteStrip_sizeOf_le (c : Prop) [Decidable c] (n : CSNode) :
    sizeOf (if c then stripLoc n else n) ≤ sizeOf n := by
  split_ifs with h
  · exact stripLoc_sizeOf_le n
  · exact Nat.le_refl _

mutual
/-- `convert` from src/parser.js, on the embedded node kinds.  With an
empty ancestor list the node is the root and produces a `Program`
wrapping a `Block`; otherwise the switch on the upstream node kind
applies.  Results are `Option NNode` because an empty `Block` converts
to `null`. -/
def convert (source : List Char) (m : Mapper) (node : CSNode)
    (ancestors : List CSNode) : Except ConvError (Option NNode) :=
  if ancestors.isEmpty then
    match node with
    | .Block exprs locationData => do
      let stmts ← convertList source m exprs
        (ancestors ++ [CSNode.Block exprs locationData])
      let body ← makeNode source m (some "Block") (locVal locationData)
        [("statements", .nodes stmts)]
      let prog ← makeNode source m (some "Program") (locVal locationData)
        [("body", .node body)]
      pure (some prog)
    | _ => .error .jsTypeError
  else
    match node with
    | .Op operator first second locationData => do
      let n ← convertOperator source m operator first second locationData ancestors
      pure (some n)
    | .If condition body elseBody locationData =>
      -- `unless` sugar: when the condition is a `!` operator whose
      -- locationData is the very same object as the conditional's, the
      -- source nulls the condition's locationData in place before
      -- converting it; the rest of the case is `convertIf`.
      convertIf source m
        (if isBangOp condition && refEq locationData (csLocationData condition)
         then stripLoc condition else condition)
        body elseBody locationData ancestors
    | .Parens body locationData =>
      match body with
      | .Block (e :: rest) bloc =>
        convert source m e
          (ancestors ++ [CSNode.Parens (CSNode.Block (e :: rest) bloc) locationData])
      | _ => .error .jsTypeError
    | .Block exprs locationData =>
      match exprs with
      | [] => pure none
      | e :: rest => do
        let stmts ← convertList source m (e :: rest)
          (ancestors ++ [CSNode.Block exprs locationData])
        let b ← makeNode source m (some "Block") (locVal locationData)
          [("statements", .nodes stmts)]
        pure (some b)
    | .Switch subject cases otherwise locationData => do
      let sw := CSNode.Switch subject cases otherwise locationData
      let subjN ← convert source m subject (ancestors ++ [sw])
      let caseNodes ← convertCases source m cases sw ancestors
      let alt ←
        match otherwise with
        | some o => do
          let a ← convert source m o (ancestors ++ [sw])
          pure (attrOf a)
        | none => pure Attr.nul
      let n ← makeNode source m (some "Switch") (locVal locationData)
        [("expression", attrOf subjN), ("cases", .nodes (caseNodes.map some)),
          ("alternate", alt)]
      pure (some n)
    | .Null locationData => do
      let n ← makeNode source m (some "Null") (locVal locationData) []
      pure (some n)

termination_by (sizeOf node, 1)
decreasing_by
  all_goals simp_wf
  all_goals apply Prod.Lex.left
  all_goals first
    | omega
    | (refine lt_of_le_of_lt
        (Nat.add_le_add_right (Nat.add_le_add_right (iteStrip_sizeOf_le _ _) _) _) ?_
       omega)

/-- The body of `convert`'s `If` case after the `unless` mutation: the
(possibly location-stripped) condition, the consequent and the optional
alternate are converted as children of the (mutated) conditional node,
and a `Conditional` node is built over the conditional's own span. -/
def convertIf (source : List Char) (m : Mapper) (condition : CSNode)
    (body : CSNode) (elseBody : Option CSNode) (locationData : Option LocRef)
    (ancestors : List CSNode) : Except ConvError (Option NNode) :=
  let node' := CSNode.If condition body elseBody locationData
  do
    let c ← convert source m condition (ancestors ++ [node'])
    let b ← convert source m body (ancestors ++ [node'])
    let alt ←
      match elseBody with
      | some e => do
        let a ← convert source m e (ancestors ++ [node'])
        pure (attrOf a)
      | none => pure Attr.nul
    let n ← makeNode source m (some "Conditional") (locVal locationData)
      [("condition", attrOf c), ("consequent", attrOf b), ("alternate", alt)]
    pure (some n)
termination_by (sizeOf condition + sizeOf body + sizeOf elseBody, 0)
decreasing_by
  all_goals simp_wf
  all_goals apply Prod.Lex.left
  all_goals
    have hb := csnode_sizeOf_pos body
  all_goals
    have hc := csnode_sizeOf_pos condition
  all_goals omega

/-- `convertOperator` from src/parser.js, taking the `Op` node's fields
(the reconstructed node itself is appended to the ancestors, as
`[...ancestors, op]` is in the source).  Note the operator dispatch has
no default case: an unrecognized operator leaves the node type
`undefined` and still builds a node. -/
def convertOperator (source : List Char) (m : Mapper) (operator : String)
    (first : CSNode) (second : Option CSNode) (locationData : Option LocRef)
    (ancestors : List CSNode) : Except ConvError NNode :=
  match second with
  | some s => do
    let leftN ← convert source m first
      (ancestors ++ [CSNode.Op operator first (some s) locationData])
    let rightN ← convert source m s
      (ancestors ++ [CSNode.Op operator first (some s) locationData])
    makeNode source m (binaryOpType operator) (locVal locationData)
      [("left", attrOf leftN), ("right", attrOf rightN)]
  | none => do
    let e ← convert source m first
      (ancestors ++ [CSNode.Op operator first none locationData])
    makeNode source m (unaryOpType operator) (locVal locationData)
      [("expression", attrOf e)]

termination_by (sizeOf first + sizeOf second, 0)
decreasing_by
  all_goals simp_wf
  all_goals apply Prod.Lex.left
  all_goals omega

/-- Conversion of a list of children (`children.map(convertChild)`);
the caller passes the already-extended ancestor list. -/
def convertList (source : List Char) (m : Mapper) (nodes : List CSNode)
    (ancestors : List CSNode) : Except ConvError (List (Option NNode)) :=
  match nodes with
  | [] => pure []
  | x :: xs => do
    let n ← convert source m x ancestors
    let rest ← convertList source m xs ancestors
    pure (n :: rest)

termination_by (sizeOf nodes, 0)
decreasing_by
  all_goals simp_wf
  all_goals apply Prod.Lex.left
  all_goals omega

/-- Conversion of an upstream switch's case list
(`node.cases.map(([conditions, body]) => ...)`). -/
def convertCases (source : List Char) (m : Mapper) (cases : List CSCase)
    (sw : CSNode) (ancestors : List CSNode) : Except ConvError (List NNode) :=
  match cases with
  | [] => pure []
  | c :: rest => do
    let n ← convertSwitchCase source m c sw ancestors
    let others ← convertCases source m rest sw ancestors
    pure (n :: others)

termination_by (sizeOf cases, 1)
decreasing_by
  all_goals simp_wf
  all_goals apply Prod.Lex.left
  all_goals omega

/-- Conversion of a single switch case: normalize the conditions to a
list, left-expand the merge of the first condition's span and the
body's span through `"when "`, and build the `SwitchCase` node. -/
def convertSwitchCase (source : List Char) (m : Mapper) (c : CSCase)
    (sw : CSNode) (ancestors : List CSNode) : Except ConvError NNode :=
  match c with
  | .mk cc body =>
    match normalizeConds cc with
    | [] => .error .jsTypeError
    | c0 :: _ =>
      match csLocationData c0, csLocationData body with
      | some a, some b => do
        let loc ← expandLocationLeftThrough source m
          (mergeLocations a.val b.val) "when "
        let condNodes ← convertList source m (normalizeConds cc)
          (ancestors ++ [sw])
        let bodyN ← convert source m body (ancestors ++ [sw])
        makeNode source m (some "SwitchCase") (some loc)
          [("conditions", .nodes condNodes), ("consequent", attrOf bodyN)]
      | _, _ => .error .jsTypeError
termination_by (sizeOf c, 0)
decreasing_by
  all_goals simp_wf
  all_goals apply Prod.Lex.left
  all_goals first
    | omega
    | (refine lt_of_le_of_lt (normalizeConds_sizeOf_le _) ?_
       first
         | exact Nat.lt_add_of_pos_right (csnode_sizeOf_pos _)
         | omega)
end

theorem isEmpty_false_of_ne {α : Type} {l : List α} (h : l ≠ []) : l.isEmpty = false := by
  cases l with
  | nil => exact absurd rfl h
  | cons a t => rfl

theorem exceptBind_congr {ε α β : Type} {a b : Except ε α} {f g : α → Except ε β}
    (h1 : a = b) (h2 : ∀ x, f x = g x) : (a >>= f) = (b >>= g) := by
  subst h1
  exact congrArg (Bind.bind a) (funext h2)

/-- The converter only ever inspects its `ancestors` argument through
`ancestors.length === 0`; for any two non-empty ancestor lists the
result is the same.  (Consequently expressions discarded by the
`Parens` case are never visited: they can only influence a conversion
through the ancestor lists they appear in.) -/
theorem convert_ancestors_irrelevant (source : List Char) (m : Mapper) :
    ∀ (n : CSNode) (anc : List CSNode), ∀ anc' : List CSNode, anc ≠ [] → anc' ≠ [] →
      convert source m n anc = convert source m n anc' := by
  refine convert.induct source m
    (fun n anc => ∀ anc', anc ≠ [] → anc' ≠ [] →
      convert source m n anc = convert source m n anc')
    (fun cs sw anc => ∀ anc',
      convertCases source m cs sw anc = convertCases source m cs sw anc')
    (fun c sw anc => ∀ anc',
      convertSwitchCase source m c sw anc = convertSwitchCase source m c sw anc')
    (fun ns anc => ∀ anc', anc ≠ [] → anc' ≠ [] →
      convertList source m ns anc = convertList source m ns anc')
    (fun condition body elseBody l anc => ∀ anc',
      convertIf source m condition body elseBody l anc =
        convertIf source m condition body elseBody l anc')
    (fun operator first second l anc => ∀ anc',
      convertOperator source m operator first second l anc =
        convertOperator source m operator first second l anc')
    ?_ ?_ ?_ ?_ ?_ ?_ ?_ ?_ ?_ ?_ ?_ ?_ ?_ ?_ ?_ ?_ ?_ ?_ ?_ ?_
  · -- root Block: vacuous, the ancestor list is empty
    intro anc hE exprs l _ anc' h1 h2
    cases anc with
    | nil => exact absurd rfl h1
    | cons a t => simp at hE
  · -- root non-Block: vacuous
    intro node anc hE _ anc' h1 h2
    cases anc with
    | nil => exact absurd rfl h1
    | cons a t => simp at hE
  · -- Op
    intro anc hNE operator first second l IH anc' h1 h2
    rw [convert.eq_def, convert.eq_def]
    simp only [isEmpty_false_of_ne h1, isEmpty_false_of_ne h2, Bool.false_eq_true, if_false]
    exact exceptBind_congr (IH anc') fun x => rfl
  · -- If
    intro anc hNE condition body elseBody l IH anc' h1 h2
    rw [convert.eq_def, convert.eq_def]
    simp only [isEmpty_false_of_ne h1, isEmpty_false_of_ne h2, Bool.false_eq_true, if_false]
    have h := IH anc'
    rw [dite_eq_ite] at h
    exact h
  · -- Parens over a non-empty Block
    intro anc hNE l e rest bloc IH anc' h1 h2
    rw [convert.eq_def, convert.eq_def]
    simp only [isEmpty_false_of_ne h1, isEmpty_false_of_ne h2, Bool.false_eq_true, if_false]
    exact IH (anc' ++ [CSNode.Parens (CSNode.Block (e :: rest) bloc) l]) (by simp) (by simp)
  · -- Parens over anything else: a TypeError either way
    intro anc hNE l x hno anc' h1 h2
    rw [convert.eq_def, convert.eq_def]
    simp only [isEmpty_false_of_ne h1, isEmpty_false_of_ne h2, Bool.false_eq_true, if_false]
  · -- empty Block: null either way
    intro anc hNE l anc' h1 h2
    rw [convert.eq_def, convert.eq_def]
    simp only [isEmpty_false_of_ne h1, isEmpty_false_of_ne h2, Bool.false_eq_true, if_false]
  · -- non-empty Block
    intro anc hNE l e rest IH anc' h1 h2
    rw [convert.eq_def, convert.eq_def]
    simp only [isEmpty_false_of_ne h1, isEmpty_false_of_ne h2, Bool.false_eq_true, if_false]
    exact exceptBind_congr
      (IH (anc' ++ [CSNode.Block (e :: rest) l]) (by simp) (by simp)) fun x => rfl
  · -- Switch
    intro anc hNE subject cases' otherwise l sw IHsubj IHcases IHoth anc' h1 h2
    rw [convert.eq_def, convert.eq_def]
    simp only [isEmpty_false_of_ne h1, isEmpty_false_of_ne h2, Bool.false_eq_true, if_false]
    refine exceptBind_congr (IHsubj (anc' ++ [sw]) (by simp) (by simp)) fun subjN => ?_
    refine exceptBind_congr (IHcases anc') fun caseNodes => ?_
    cases otherwise with
    | none => rfl
    | some o =>
      exact exceptBind_congr (IHoth (anc' ++ [sw]) (by simp) (by simp)) fun a => rfl
  · -- Null
    intro anc hNE l anc' h1 h2
    rw [convert.eq_def, convert.eq_def]
    simp only [isEmpty_false_of_ne h1, isEmpty_false_of_ne h2, Bool.false_eq_true, if_false]
  · -- convertCases nil
    intro sw anc anc'
    rw [convertCases.eq_def, convertCases.eq_def]
  · -- convertCases cons
    intro sw anc c rest IHc IHrest anc'
    rw [convertCases.eq_def, convertCases.eq_def]
    exact exceptBind_congr (IHc anc') fun n =>
      exceptBind_congr (IHrest anc') fun others => rfl
  · -- convertSwitchCase with an empty normalized condition list
    intro sw anc cc body hnorm anc'
    rw [convertSwitchCase.eq_def, convertSwitchCase.eq_def]
    simp only [hnorm]
  · -- convertSwitchCase success shape
    intro sw anc cc body c0 tail hnorm a b hb ha IHconds IHbody anc'
    rw [convertSwitchCase.eq_def, convertSwitchCase.eq_def]
    rw [hnorm] at IHconds
    simp only [hnorm, ha, hb]
    refine exceptBind_congr rfl fun loc => ?_
    refine exceptBind_congr (IHconds (anc' ++ [sw]) (by simp) (by simp)) fun condNodes => ?_
    exact exceptBind_congr (IHbody (anc' ++ [sw]) (by simp) (by simp)) fun bodyN => rfl
  · -- convertSwitchCase with missing location data
    intro sw anc cc body c0 tail hnorm hno anc'
    rw [convertSwitchCase.eq_def, convertSwitchCase.eq_def]
    simp only [hnorm]
  · -- convertList nil
    intro anc anc' h1 h2
    rw [convertList.eq_def, convertList.eq_def]
  · -- convertList cons
    intro anc e rest IHe IHrest anc' h1 h2
    rw [convertList.eq_def, convertList.eq_def]
    exact exceptBind_congr (IHe anc' h1 h2) fun n =>
      exceptBind_congr (IHrest anc' h1 h2) fun r => rfl
  · -- convertIf
    intro condition body elseBody locationData anc node' IHc IHb IHoth anc'
    rw [convertIf.eq_def, convertIf.eq_def]
    refine exceptBind_congr (IHc (anc' ++ [node']) (by simp) (by simp)) fun c => ?_
    refine exceptBind_congr (IHb (anc' ++ [node']) (by simp) (by simp)) fun b => ?_
    cases elseBody with
    | none => rfl
    | some e =>
      exact exceptBind_congr (IHoth (anc' ++ [node']) (by simp) (by simp)) fun a => rfl
  · -- convertOperator, binary
    intro operator first locationData anc o IHf IHo anc'
    rw [convertOperator.eq_def, convertOperator.eq_def]
    refine exceptBind_congr
      (IHf (anc' ++ [CSNode.Op operator first (some o) locationData]) (by simp) (by simp))
      fun lN => ?_
    exact exceptBind_congr
      (IHo (anc' ++ [CSNode.Op operator first (some o) locationData]) (by simp) (by simp))
      fun rN => rfl
  · -- convertOperator, unary
    intro operator first locationData anc IHf anc'
    rw [convertOperator.eq_def, convertOperator.eq_def]
    exact exceptBind_congr
      (IHf (anc' ++ [CSNode.Op operator first none locationData]) (by simp) (by simp))
      fun eN => rfl

/-- Look up a named attribute of a normalized node. -/
def getAttr (n : NNode) (key : String) : Option Attr :=
  (n.attrs.find? (fun p => p.1 == key)).map (fun p => p.2)

/-- The `type` tag of the node produced by a conversion, when the
conversion succeeded with a node. -/
def typeOf? (e : Except ConvError (Option NNode)) : Option (Option String) :=
  match e with
  | .ok (some n) => some n.type
  | _ => none

theorem makeNode_virtual {source : List Char} {m : Mapper} {ty : Option String}
    {loc : Option Loc} {attrs : List (String × Attr)} {n : NNode}
    (h : makeNode source m ty loc attrs = Except.ok n) : n.virtual = loc.isNone := by
  cases loc with
  | none =>
    injection h with h
    subst h
    rfl
  | some l =>
    obtain ⟨r, _, rfl⟩ := makeNode_some h
    rfl

theorem makeNode_attrs {source : List Char} {m : Mapper} {ty : Option String}
    {loc : Option Loc} {attrs : List (String × Attr)} {n : NNode}
    (h : makeNode source m ty loc attrs = Except.ok n) : n.attrs = attrs := by
  cases loc with
  | none =>
    injection h with h
    subst h
    rfl
  | some l =>
    obtain ⟨r, _, rfl⟩ := makeNode_some h
    rfl

theorem convertOperator_ok_virtual {source : List Char} {m : Mapper}
    {op : String} {f : CSNode} {s : Option CSNode} {lr : Option LocRef}
    {anc : List CSNode} {nd : NNode}
    (h : convertOperator source m op f s lr anc = Except.ok nd) :
    nd.virtual = lr.isNone := by
  rw [convertOperator.eq_def] at h
  cases s with
  | some s' =>
    simp only at h
    cases h1 : convert source m f (anc ++ [CSNode.Op op f (some s') lr]) with
    | error e => rw [h1] at h; simp at h
    | ok lN =>
      rw [h1] at h
      simp only [exceptBind_ok] at h
      cases h2 : convert source m s' (anc ++ [CSNode.Op op f (some s') lr]) with
      | error e => rw [h2] at h; simp at h
      | ok rN =>
        rw [h2] at h
        simp only [exceptBind_ok] at h
        have hv := makeNode_virtual h
        rw [hv]
        cases lr <;> rfl
  | none =>
    simp only at h
    cases h1 : convert source m f (anc ++ [CSNode.Op op f none lr]) with
    | error e => rw [h1] at h; simp at h
    | ok eN =>
      rw [h1] at h
      simp only [exceptBind_ok] at h
      have hv := makeNode_virtual h
      rw [hv]
      cases lr <;> rfl

theorem convert_op_ok {source : List Char} {m : Mapper} {op : String}
    {f : CSNode} {s : Option CSNode} {lr : Option LocRef}
    {anc : List CSNode} {copt : Option NNode} (h : anc ≠ [])
    (hconv : convert source m (CSNode.Op op f s lr) anc = Except.ok copt) :
    ∃ nd : NNode, copt = some nd ∧
      convertOperator source m op f s lr anc = Except.ok nd := by
  rw [convert.eq_def] at hconv
  simp only [isEmpty_false_of_ne h, Bool.false_eq_true, if_false] at hconv
  cases hco : convertOperator source m op f s lr anc with
  | error e => rw [hco] at hconv; simp at hconv
  | ok nd =>
    rw [hco] at hconv
    simp only [exceptBind_ok, exceptPure_eq] at hconv
    injection hconv with hconv
    exact ⟨nd, hconv.symm, rfl⟩

/-- A binary `Op` node with the unrecognized operator `&&` over the
source `a && b`, with plausible location data. -/
def c1op : CSNode :=
  .Op "&&" (.Null (some ⟨1, ⟨0, 0, 0, 0⟩⟩)) (some (.Null (some ⟨2, ⟨0, 5, 0, 5⟩⟩)))
    (some ⟨0, ⟨0, 0, 0, 5⟩⟩)

/-- Claim C1 (failing input): converting an `Op` node whose operator
`&&` is outside the recognized set does NOT raise the unrecognized-node
error — `convertOperator` has no default case, so `nodeType` stays
`undefined` and a node with an undefined `type` is returned. -/
theorem C1_unrecognized_operator_returns_untyped_node :
    typeOf? (convert "a && b".toList wMapper c1op [CSNode.Null none]) = some none := by
  simp [typeOf?, convert, convertOperator, makeNode, binaryOpType, locVal,
    attrOf, widenAttr, widenRange, NNode.range, NNode.type, jsSlice,
    jsIndexClamp, wMapper, c1op]
  try decide

/-- The `virtual` flag of the produced conditional's condition node,
when conversion succeeded. -/
def conditionVirtualOf (e : Except ConvError (Option NNode)) : Option Bool :=
  match e with
  | .ok (some n) =>
    match getAttr n "condition" with
    | some (.node c) => some c.virtual
    | _ => none
  | _ => none

/-- A span value shared (by value, not by object identity) between the
conditional and its negated condition in the C3 counterexample. -/
def c3L : Loc := ⟨0, 0, 0, 9⟩

/-- A logical-not condition whose `locationData` has exactly the same
coordinate values as the enclosing conditional's, but is a different
object (id 1 vs id 0). -/
def c3Cond : CSNode :=
  .Op "!" (.Null (some ⟨2, ⟨0, 1, 0, 1⟩⟩)) none (some ⟨1, c3L⟩)

/-- A conditional whose span has the same coordinate values as its
negated condition's span, held in two distinct objects. -/
def c3If : CSNode :=
  .If c3Cond (.Null (some ⟨3, ⟨0, 3, 0, 3⟩⟩)) none (some ⟨0, c3L⟩)

/-- Counterexample to claim C3 as stated: the conditional's span and
the condition's span have exactly the same line/column coordinate
values (both are `c3L`), yet the produced condition node is NOT
virtual, because the source compares the two `locationData` objects
with `===` (reference identity), not by value. -/
theorem C3_counterexample :
    locVal (csLocationData c3Cond) = some c3L ∧
      locVal (csLocationData c3If) = some c3L ∧
      conditionVirtualOf
          (convert "abcdefghij".toList wMapper c3If [CSNode.Null none]) =
        some false := by
  refine ⟨rfl, rfl, ?_⟩
  simp [conditionVirtualOf, getAttr, convert, convertIf, convertOperator,
    makeNode, isBangOp, refEq, csLocationData, stripLoc, unaryOpType, locVal,
    attrOf, widenAttr, widenRange, NNode.range, NNode.attrs, NNode.virtual,
    jsSlice, jsIndexClamp, wMapper, c3If, c3Cond, c3L]
  try decide

/-- Claim C3 (amended): for a conditional whose condition is a
logical-not `Op`, the produced condition node is virtual IF AND ONLY IF
the condition's `locationData` is the very same object as the
conditional's (`===` in the source compares object identity); equal
coordinate values in two distinct objects do not make it virtual. -/
theorem C3_unless_virtual_iff_same_object (source : List Char) (m : Mapper)
    (first : CSNode) (s : Option CSNode) (body : CSNode) (els : Option CSNode)
    (r r' : LocRef) (anc : List CSNode) (n : NNode) (h : anc ≠ [])
    (hconv : convert source m
        (CSNode.If (CSNode.Op "!" first s (some r')) body els (some r)) anc =
      Except.ok (some n)) :
    ∃ c : NNode, getAttr n "condition" = some (Attr.node c) ∧
      (c.virtual = true ↔ r.id = r'.id) := by
  rw [convert.eq_def] at hconv
  simp only [isEmpty_false_of_ne h, Bool.false_eq_true, if_false, isBangOp,
    refEq, csLocationData, beq_self_eq_true, Bool.true_and] at hconv
  rw [convertIf.eq_def] at hconv
  cases hid : r.id == r'.id with
  | true =>
    rw [hid] at hconv
    simp only [eq_self_iff_true, if_true, stripLoc] at hconv
    cases h1 : convert source m (CSNode.Op "!" first s none)
        (anc ++ [CSNode.If (CSNode.Op "!" first s none) body els (some r)]) with
    | error e => rw [h1] at hconv; simp at hconv
    | ok copt =>
      rw [h1] at hconv
      simp only [exceptBind_ok] at hconv
      obtain ⟨nd, rfl, hco⟩ := convert_op_ok (by simp) h1
      cases h2 : convert source m body
          (anc ++ [CSNode.If (CSNode.Op "!" first s none) body els (some r)]) with
      | error e => rw [h2] at hconv; simp at hconv
      | ok bopt =>
        rw [h2] at hconv
        simp only [exceptBind_ok] at hconv
        have hvirt : nd.virtual = true := convertOperator_ok_virtual hco
        refine ?_
        cases els with
        | none =>
          dsimp only at hconv
          simp only [exceptPure_eq, exceptBind_ok] at hconv
          cases h4 : makeNode source m (some "Conditional") (locVal (some r))
              [("condition", attrOf (some nd)), ("consequent", attrOf bopt),
                ("alternate", Attr.nul)] with
          | error e => rw [h4] at hconv; simp at hconv
          | ok nn =>
            rw [h4] at hconv
            simp only [exceptBind_ok, exceptPure_eq] at hconv
            injection hconv with hconv
            injection hconv with hconv
            subst hconv
            have hattrs := makeNode_attrs h4
            refine ⟨nd, ?_, iff_of_true hvirt (by simpa using hid)⟩
            simp [getAttr, hattrs, attrOf]
        | some e' =>
          dsimp only at hconv
          cases h3 : convert source m e'
              (anc ++ [CSNode.If (CSNode.Op "!" first s none) body (some e') (some r)]) with
          | error err => rw [h3] at hconv; simp at hconv
          | ok aopt =>
            rw [h3] at hconv
            simp only [exceptBind_ok, exceptPure_eq] at hconv
            cases h4 : makeNode source m (some "Conditional") (locVal (some r))
                [("condition", attrOf (some nd)), ("consequent", attrOf bopt),
                  ("alternate", attrOf aopt)] with
            | error err => rw [h4] at hconv; simp at hconv
            | ok nn =>
              rw [h4] at hconv
              simp only [exceptBind_ok, exceptPure_eq] at hconv
              injection hconv with hconv
              injection hconv with hconv
              subst hconv
              have hattrs := makeNode_attrs h4
              refine ⟨nd, ?_, iff_of_true hvirt (by simpa using hid)⟩
              simp [getAttr, hattrs, attrOf]
  | false =>
    rw [hid] at hconv
    simp only [Bool.false_eq_true, if_false] at hconv
    cases h1 : convert source m (CSNode.Op "!" first s (some r'))
        (anc ++ [CSNode.If (CSNode.Op "!" first s (some r')) body els (some r)]) with
    | error e => rw [h1] at hconv; simp at hconv
    | ok copt =>
      rw [h1] at hconv
      simp only [exceptBind_ok] at hconv
      obtain ⟨nd, rfl, hco⟩ := convert_op_ok (by simp) h1
      cases h2 : convert source m body
          (anc ++ [CSNode.If (CSNode.Op "!" first s (some r')) body els (some r)]) with
      | error e => rw [h2] at hconv; simp at hconv
      | ok bopt =>
        rw [h2] at hconv
        simp only [exceptBind_ok] at hconv
        have hvirt : nd.virtual = false := convertOperator_ok_virtual hco
        cases els with
        | none =>
          dsimp only at hconv
          simp only [exceptPure_eq, exceptBind_ok] at hconv
          cases h4 : makeNode source m (some "Conditional") (locVal (some r))
              [("condition", attrOf (some nd)), ("consequent", attrOf bopt),
                ("alternate", Attr.nul)] with
          | error e => rw [h4] at hconv; simp at hconv
          | ok nn =>
            rw [h4] at hconv
            simp only [exceptBind_ok, exceptPure_eq] at hconv
            injection hconv with hconv
            injection hconv with hconv
            subst hconv
            have hattrs := makeNode_attrs h4
            refine ⟨nd, ?_, iff_of_false (by simp [hvirt]) (by simpa using hid)⟩
            simp [getAttr, hattrs, attrOf]
        | some e' =>
          dsimp only at hconv
          cases h3 : convert source m e'
              (anc ++ [CSNode.If (CSNode.Op "!" first s (some r')) body (some e') (some r)]) with
          | error err => rw [h3] at hconv; simp at hconv
          | ok aopt =>
            rw [h3] at hconv
            simp only [exceptBind_ok, exceptPure_eq] at hconv
            cases h4 : makeNode source m (some "Conditional") (locVal (some r))
                [("condition", attrOf (some nd)), ("consequent", attrOf bopt),
                  ("alternate", attrOf aopt)] with
            | error err => rw [h4] at hconv; simp at hconv
            | ok nn =>
              rw [h4] at hconv
              simp only [exceptBind_ok, exceptPure_eq] at hconv
              injection hconv with hconv
              injection hconv with hconv
              subst hconv
              have hattrs := makeNode_attrs h4
              refine ⟨nd, ?_, iff_of_false (by simp [hvirt]) (by simpa using hid)⟩
              simp [getAttr, hattrs, attrOf]

/-- An `unless`-style conditional: the condition's `locationData` is
the very same object (id 7) as the conditional's. -/
def c3IfSame : CSNode :=
  .If (.Op "!" (.Null (some ⟨2, ⟨0, 1, 0, 1⟩⟩)) none (some ⟨7, c3L⟩))
    (.Null (some ⟨3, ⟨0, 3, 0, 3⟩⟩)) none (some ⟨7, c3L⟩)

/-- Witness for C3 (amended): when the two `locationData` references
are the same object, the produced condition node is virtual. -/
theorem C3_unless_virtual_witness :
    ∃ n c : NNode,
      convert "abcdefghij".toList wMapper c3IfSame [CSNode.Null none] =
          Except.ok (some n) ∧
        getAttr n "condition" = some (Attr.node c) ∧ c.virtual = true := by
  cases hconv : convert "abcdefghij".toList wMapper c3IfSame [CSNode.Null none] with
  | error e =>
    exfalso
    revert hconv
    simp [convert, convertIf, convertOperator, makeNode, isBangOp, refEq,
      csLocationData, stripLoc, unaryOpType, locVal, attrOf, widenAttr,
      widenRange, NNode.range, jsSlice, jsIndexClamp, wMapper, c3IfSame, c3L]
  | ok o =>
    cases o with
    | none =>
      exfalso
      revert hconv
      simp [convert, convertIf, convertOperator, makeNode, isBangOp, refEq,
        csLocationData, stripLoc, unaryOpType, locVal, attrOf, widenAttr,
        widenRange, NNode.range, jsSlice, jsIndexClamp, wMapper, c3IfSame, c3L]
    | some n =>
      obtain ⟨c, hc, hv⟩ := C3_unless_virtual_iff_same_object
        "abcdefghij".toList wMapper (CSNode.Null (some ⟨2, ⟨0, 1, 0, 1⟩⟩)) none
        (CSNode.Null (some ⟨3, ⟨0, 3, 0, 3⟩⟩)) none ⟨7, c3L⟩ ⟨7, c3L⟩
        [CSNode.Null none] n (List.cons_ne_nil _ _) hconv
      exact ⟨n, c, rfl, hc, hv.mpr rfl⟩

/-- Claim C2 (amended): the span of a produced `SwitchCase` node is the
merge of the FIRST condition's span with the body's span, left-expanded
through `"when "` — the source merges `conditions[0]` with the body,
not all conditions.  The node's 1-based line/column come from that
expanded span's start. -/
theorem C2_switch_case_span_first_condition (source : List Char) (m : Mapper)
    (cc : CSCaseConds) (body : CSNode) (sw : CSNode) (anc : List CSNode)
    (c0 : CSNode) (tail : List CSNode) (a b : LocRef) (l : Loc) (n : NNode)
    (hnorm : normalizeConds cc = c0 :: tail)
    (ha : csLocationData c0 = some a) (hb : csLocationData body = some b)
    (hexp : expandLocationLeftThrough source m
      (mergeLocations a.val b.val) "when " = Except.ok l)
    (hconv : convertSwitchCase source m (CSCase.mk cc body) sw anc =
      Except.ok n) :
    n.line = some (l.first_line + 1) ∧ n.column = some (l.first_column + 1) ∧
      n.virtual = false := by
  rw [convertSwitchCase.eq_def] at hconv
  simp only [hnorm, ha, hb] at hconv
  rw [hexp] at hconv
  simp only [exceptBind_ok] at hconv
  cases h1 : convertList source m (c0 :: tail) (anc ++ [sw]) with
  | error e => rw [h1] at hconv; simp at hconv
  | ok condNodes =>
    rw [h1] at hconv
    simp only [exceptBind_ok] at hconv
    cases h2 : convert source m body (anc ++ [sw]) with
    | error e => rw [h2] at hconv; simp at hconv
    | ok bodyN =>
      rw [h2] at hconv
      simp only [exceptBind_ok] at hconv
      obtain ⟨r, _, rfl⟩ := makeNode_some hconv
      exact ⟨rfl, rfl, rfl⟩

/-- Source text for the C2 example: `when x when y z`. -/
def c2src : List Char := "when x when y z".toList

/-- First condition of the case (span at column 12, the `y`). -/
def c2y : CSNode := .Null (some ⟨10, ⟨0, 12, 0, 12⟩⟩)

/-- Second condition of the case (span at column 5, the `x`). -/
def c2x : CSNode := .Null (some ⟨11, ⟨0, 5, 0, 5⟩⟩)

/-- The case body (span at column 14, the `z`). -/
def c2body : CSNode := .Null (some ⟨12, ⟨0, 14, 0, 14⟩⟩)

/-- A switch case with two conditions whose merged span differs from
the first condition's span merged with the body's. -/
def c2case : CSCase := .mk (.arr [c2y, c2x]) c2body

/-- The 1-based column of a produced `SwitchCase` node. -/
def caseColumnOf (e : Except ConvError NNode) : Option Nat :=
  match e with
  | .ok n => n.column
  | _ => none

/-- Counterexample to claim C2 as stated: for a case with conditions
`[y at column 12, x at column 5]` and body at column 14, the claim's
formula — the merge of ALL condition spans with the body's span
(`(0,5)-(0,14)`), left-expanded through `"when "` — yields a span
starting at column 0, i.e. a node column of 1; but the source merges
only the FIRST condition with the body, so the produced `SwitchCase`
node starts at the second `when` and has column 8. -/
theorem C2_counterexample :
    caseColumnOf (convertSwitchCase c2src wMapper c2case (CSNode.Null none)
        [CSNode.Null none]) = some 8 ∧
      locationContainingNodes [⟨0, 12, 0, 12⟩, ⟨0, 5, 0, 5⟩, ⟨0, 14, 0, 14⟩] =
        some ⟨0, 5, 0, 14⟩ ∧
      expandLocationLeftThrough c2src wMapper ⟨0, 5, 0, 14⟩ "when " =
        Except.ok ⟨0, 0, 0, 14⟩ := by
  refine ⟨?_, by decide, by rfl⟩
  have hexp : expandLocationLeftThrough
      ['w', 'h', 'e', 'n', ' ', 'x', ' ', 'w', 'h', 'e', 'n', ' ', 'y', ' ', 'z']
      ⟨fun _ c => (c : Int), fun o => (0, o)⟩ ⟨0, 12, 0, 14⟩ "when " =
      Except.ok ⟨0, 7, 0, 14⟩ := by rfl
  simp [caseColumnOf, convertSwitchCase, convertList, convert, makeNode, hexp,
    mergeLocations,
    normalizeConds, csLocationData, locVal, attrOf, widenAttr, widenRange,
    NNode.range, NNode.column, jsSlice, jsIndexClamp, wMapper, c2src, c2y,
    c2x, c2body, c2case]
  try decide

/-- Witness for C2 (amended): the produced `SwitchCase` node of the
concrete case above has line 1 and column 8, i.e. the span obtained by
left-expanding the merge of the first condition's span and the body's
span through `"when "`. -/
theorem C2_switch_case_span_witness :
    ∃ n : NNode,
      convertSwitchCase c2src wMapper c2case (CSNode.Null none)
          [CSNode.Null none] = Except.ok n ∧
        n.line = some 1 ∧ n.column = some 8 ∧ n.virtual = false := by
  cases hconv : convertSwitchCase c2src wMapper c2case (CSNode.Null none)
      [CSNode.Null none] with
  | error e =>
    exfalso
    revert hconv
    have hexp : expandLocationLeftThrough
        ['w', 'h', 'e', 'n', ' ', 'x', ' ', 'w', 'h', 'e', 'n', ' ', 'y', ' ', 'z']
        ⟨fun _ c => (c : Int), fun o => (0, o)⟩ ⟨0, 12, 0, 14⟩ "when " =
        Except.ok ⟨0, 7, 0, 14⟩ := by rfl
    simp [convertSwitchCase, convertList, convert, makeNode, hexp,
      mergeLocations,
      normalizeConds, csLocationData, locVal, attrOf, widenAttr, widenRange,
      NNode.range, jsSlice, jsIndexClamp, wMapper, c2src, c2y, c2x, c2body,
      c2case]
  | ok n =>
    obtain ⟨h1, h2, h3⟩ := C2_switch_case_span_first_condition c2src wMapper
      (.arr [c2y, c2x]) c2body (CSNode.Null none) [CSNode.Null none] c2y [c2x]
      ⟨10, ⟨0, 12, 0, 12⟩⟩ ⟨12, ⟨0, 14, 0, 14⟩⟩ ⟨0, 7, 0, 14⟩ n rfl rfl rfl
      (by rfl) hconv
    exact ⟨n, rfl, h1, h2, h3⟩

/-- Claim C10: converting a `Parens` node returns the conversion of
only the first expression of its body; any further expressions are
silently discarded without error and never visited — the result does
not depend on them at all. -/
theorem C10_parens_first_expression_only (source : List Char) (m : Mapper)
    (e : CSNode) (rest rest' : List CSNode) (bloc pl : Option LocRef)
    (anc : List CSNode) (h : anc ≠ []) :
    convert source m (CSNode.Parens (CSNode.Block (e :: rest) bloc) pl) anc =
        convert source m e
          (anc ++ [CSNode.Parens (CSNode.Block (e :: rest) bloc) pl]) ∧
      convert source m (CSNode.Parens (CSNode.Block (e :: rest) bloc) pl) anc =
        convert source m (CSNode.Parens (CSNode.Block (e :: rest') bloc) pl) anc := by
  have h1 : ∀ r : List CSNode,
      convert source m (CSNode.Parens (CSNode.Block (e :: r) bloc) pl) anc =
        convert source m e
          (anc ++ [CSNode.Parens (CSNode.Block (e :: r) bloc) pl]) := by
    intro r
    rw [convert.eq_def]
    simp only [isEmpty_false_of_ne h, Bool.false_eq_true, if_false]
  refine ⟨h1 rest, ?_⟩
  rw [h1 rest, h1 rest']
  exact convert_ancestors_irrelevant source m e _ _ (by simp) (by simp)

/-- Witness for C10 at a concrete input: a parenthesized body with two
expressions converts exactly like its first expression, and exactly
like the same `Parens` with the second expression deleted. -/
theorem C10_parens_first_expression_witness :
    convert "x y".toList wMapper
        (CSNode.Parens (CSNode.Block
          [CSNode.Null (some ⟨0, ⟨0, 0, 0, 0⟩⟩),
            CSNode.Null (some ⟨1, ⟨0, 2, 0, 2⟩⟩)] (some ⟨2, ⟨0, 0, 0, 2⟩⟩))
          (some ⟨3, ⟨0, 0, 0, 2⟩⟩)) [CSNode.Null none] =
      convert "x y".toList wMapper (CSNode.Null (some ⟨0, ⟨0, 0, 0, 0⟩⟩))
        ([CSNode.Null none] ++ [CSNode.Parens (CSNode.Block
          [CSNode.Null (some ⟨0, ⟨0, 0, 0, 0⟩⟩),
            CSNode.Null (some ⟨1, ⟨0, 2, 0, 2⟩⟩)] (some ⟨2, ⟨0, 0, 0, 2⟩⟩))
          (some ⟨3, ⟨0, 0, 0, 2⟩⟩)]) ∧
    convert "x y".toList wMapper
        (CSNode.Parens (CSNode.Block
          [CSNode.Null (some ⟨0, ⟨0, 0, 0, 0⟩⟩),
            CSNode.Null (some ⟨1, ⟨0, 2, 0, 2⟩⟩)] (some ⟨2, ⟨0, 0, 0, 2⟩⟩))
          (some ⟨3, ⟨0, 0, 0, 2⟩⟩)) [CSNode.Null none] =
      convert "x y".toList wMapper
        (CSNode.Parens (CSNode.Block
          [CSNode.Null (some ⟨0, ⟨0, 0, 0, 0⟩⟩)] (some ⟨2, ⟨0, 0, 0, 2⟩⟩))
          (some ⟨3, ⟨0, 0, 0, 2⟩⟩)) [CSNode.Null none] :=
  C10_parens_first_expression_only "x y".toList wMapper
    (CSNode.Null (some ⟨0, ⟨0, 0, 0, 0⟩⟩))
    [CSNode.Null (some ⟨1, ⟨0, 2, 0, 2⟩⟩)] []
    (some ⟨2, ⟨0, 0, 0, 2⟩⟩) (some ⟨3, ⟨0, 0, 0, 2⟩⟩)
    [CSNode.Null none] (List.cons_ne_nil _ _)

/-- Witness for C6 at concrete spans: the merge of `(0,2)-(0,5)` and
`(0,1)-(0,9)` covers both operands, and is covered by the concrete
common cover `(0,0)-(1,0)`. -/
theorem C6_merge_smallest_covering_witness :
    covers (mergeLocations ⟨0, 2, 0, 5⟩ ⟨0, 1, 0, 9⟩) ⟨0, 2, 0, 5⟩ ∧
      covers (mergeLocations ⟨0, 2, 0, 5⟩ ⟨0, 1, 0, 9⟩) ⟨0, 1, 0, 9⟩ ∧
      covers ⟨0, 0, 1, 0⟩ (mergeLocations ⟨0, 2, 0, 5⟩ ⟨0, 1, 0, 9⟩) := by
  refine ⟨(C6_merge_smallest_covering ⟨0, 2, 0, 5⟩ ⟨0, 1, 0, 9⟩).1,
    (C6_merge_smallest_covering ⟨0, 2, 0, 5⟩ ⟨0, 1, 0, 9⟩).2.1, ?_⟩
  exact (C6_merge_smallest_covering ⟨0, 2, 0, 5⟩ ⟨0, 1, 0, 9⟩).2.2.1
    ⟨0, 0, 1, 0⟩ (by decide) (by decide)
